import Mathlib

/-
  Shallow embedding of the Enki C++11 test suite (src/src/enki.h) and proofs
  about its behaviour.

  Modelling conventions:
  * C++ exceptions are modelled by the inductive `Enki.Exc`; a computation that
    may throw is an `Except Exc Unit` value (`.ok ()` = normal completion,
    `.error e` = the exception `e` escapes).
  * `TestFailedException` / `TestPassedException` are `Exc.testFailed` /
    `Exc.testPassed`; any other C++ exception is `Exc.other`.
  * Member-function pointers (`TestFunc`) are an abstract type parameter `F`.
  * `const char*` names are `String`; `double` durations are `ℚ` (the exact
    value returned by the clock subtraction; no claim depends on rounding).
  * The dynamic behaviour of one test invocation is an `Enki.Behaviour`:
    it either returns normally or raises one of the two signals, in each case
    after some elapsed wall-clock time.  `run` is parameterised by an oracle
    `exec : ℕ → Behaviour` giving the behaviour of the i-th executed test,
    which models arbitrary (also stateful) test procedures.
-/

namespace Enki

/-- Exceptions of the C++ model: `TestFailedException`, `TestPassedException`
and any other exception type (`catch(...)` catches all three). -/
inductive Exc where
  | testFailed : Exc
  | testPassed : Exc
  | other : Exc
deriving DecidableEq, Repr

/-- `Assert::assert(bool)` (enki.h line 90): throws `TestFailedException`
iff the condition is false. -/
def Assert.assert (condition : Bool) : Except Exc Unit :=
  if ¬ condition then Except.error Exc.testFailed else Except.ok ()

/-- `Assert::assert_exception(std::function<void(void)>)` (enki.h line 97):
`try { func(); } catch(...) { throw TestFailedException(); }`.  The argument
is modelled by the result of invoking it. -/
def Assert.assert_exception (func : Except Exc Unit) : Except Exc Unit :=
  match func with
  | Except.ok _ => Except.ok ()
  | Except.error _ => Except.error Exc.testFailed

/-- The element loop of `Assert::assert_array_equals` (enki.h lines 114-116):
`for(t = 0; t < len_a; t++) if(a[t] != b[t]) throw TestFailedException();`,
reached only after the lengths were asserted equal, so walking both lists in
lockstep is the same iteration. -/
def Assert.arrayEqualsLoop {T : Type} [DecidableEq T] : List T → List T → Except Exc Unit
  | [], _ => Except.ok ()
  | _ :: _, [] => Except.ok ()
  | x :: xs, y :: ys =>
    if x ≠ y then Except.error Exc.testFailed else Assert.arrayEqualsLoop xs ys

/-- `Assert::assert_array_equals(a, len_a, b, len_b)` (enki.h lines 111-117):
first `assert(len_a == len_b)`, then the element loop. -/
def Assert.assert_array_equals {T : Type} [DecidableEq T] (a b : List T) : Except Exc Unit :=
  match Assert.assert (a.length == b.length) with
  | Except.error e => Except.error e
  | Except.ok _ => Assert.arrayEqualsLoop a b

lemma arrayEqualsLoop_ok_or_failed {T : Type} [DecidableEq T] (a b : List T) :
    Assert.arrayEqualsLoop a b = Except.ok () ∨
      Assert.arrayEqualsLoop a b = Except.error Exc.testFailed := by
  induction a generalizing b with
  | nil => left; rfl
  | cons x xs ih =>
    cases b with
    | nil => left; rfl
    | cons y ys =>
      by_cases hxy : x = y
      · simpa [Assert.arrayEqualsLoop, hxy] using ih ys
      · right; simp [Assert.arrayEqualsLoop, hxy]

lemma arrayEqualsLoop_ok_iff {T : Type} [DecidableEq T] (a b : List T) :
    Assert.arrayEqualsLoop a b = Except.ok () ↔
      ∀ i : ℕ, ∀ ha : i < a.length, ∀ hb : i < b.length,
        a.get ⟨i, ha⟩ = b.get ⟨i, hb⟩ := by
  induction a generalizing b with
  | nil =>
    simp only [Assert.arrayEqualsLoop, List.length_nil, true_iff]
    intro i ha
    exact absurd ha (Nat.not_lt_zero i)
  | cons x xs ih =>
    cases b with
    | nil =>
      simp only [Assert.arrayEqualsLoop, List.length_nil, true_iff]
      intro i _ hb
      exact absurd hb (Nat.not_lt_zero i)
    | cons y ys =>
      by_cases hxy : x = y
      · subst hxy
        rw [show Assert.arrayEqualsLoop (x :: xs) (x :: ys) = Assert.arrayEqualsLoop xs ys by
          simp [Assert.arrayEqualsLoop]]
        rw [ih ys]
        constructor
        · intro h i ha hb
          cases i with
          | zero => rfl
          | succ j =>
            exact h j (Nat.lt_of_succ_lt_succ ha) (Nat.lt_of_succ_lt_succ hb)
        · intro h i ha hb
          exact h (i + 1) (Nat.succ_lt_succ ha) (Nat.succ_lt_succ hb)
      · constructor
        · intro h
          exact absurd h (by simp [Assert.arrayEqualsLoop, hxy])
        · intro h
          exact absurd (h 0 (Nat.succ_pos _) (Nat.succ_pos _)) hxy

/-- C7: `assert_exception` raises the Failed signal iff the invoked procedure
raised any exception or signal whatsoever (including a Failed signal raised
inside it), and returns normally (raising nothing) iff the procedure completed
without raising. -/
theorem assert_exception_fails_iff_func_throws (func : Except Exc Unit) :
    (Assert.assert_exception func = Except.error Exc.testFailed ↔
      ∃ e : Exc, func = Except.error e)
    ∧ (Assert.assert_exception func = Except.ok () ↔ func = Except.ok ()) := by
  cases func with
  | ok u => cases u; simp [Assert.assert_exception]
  | error e => simp [Assert.assert_exception]

/-- C8: `assert_array_equals` raises the Failed signal iff the lengths differ
or some corresponding pair of elements differs, and returns normally iff the
lengths agree and all corresponding elements are equal (so two empty sequences
pass); concretely `[1,2,3,4,5]` vs `[1,2,3,4,5]` passes and `[1,2,3,4,5]` vs
`[1,2,3,4,6]` raises Failed. -/
theorem assert_array_equals_spec {T : Type} [DecidableEq T] (a b : List T) :
    (Assert.assert_array_equals a b = Except.error Exc.testFailed ↔
      (a.length ≠ b.length ∨ ∃ i : ℕ, ∃ ha : i < a.length, ∃ hb : i < b.length,
        a.get ⟨i, ha⟩ ≠ b.get ⟨i, hb⟩))
    ∧ (Assert.assert_array_equals a b = Except.ok () ↔
      (a.length = b.length ∧ ∀ i : ℕ, ∀ ha : i < a.length, ∀ hb : i < b.length,
        a.get ⟨i, ha⟩ = b.get ⟨i, hb⟩))
    ∧ Assert.assert_array_equals ([1, 2, 3, 4, 5] : List ℕ) [1, 2, 3, 4, 5] = Except.ok ()
    ∧ Assert.assert_array_equals ([1, 2, 3, 4, 5] : List ℕ) [1, 2, 3, 4, 6]
        = Except.error Exc.testFailed := by
  refine ⟨?_, ?_, by rfl, by rfl⟩
  · by_cases hlen : a.length = b.length
    · rw [show Assert.assert_array_equals a b = Assert.arrayEqualsLoop a b by
        simp [Assert.assert_array_equals, Assert.assert, hlen]]
      constructor
      · intro h
        right
        rcases (not_iff_not.mpr (arrayEqualsLoop_ok_iff a b)).mp (by simp [h]) |> not_forall.mp
          with ⟨i, hi⟩
        rcases not_forall.mp hi with ⟨ha, hi2⟩
        rcases not_forall.mp hi2 with ⟨hb, hne⟩
        exact ⟨i, ha, hb, hne⟩
      · rintro (h | ⟨i, ha, hb, hne⟩)
        · exact absurd hlen h
        · rcases arrayEqualsLoop_ok_or_failed a b with hok | hfail
          · exact absurd ((arrayEqualsLoop_ok_iff a b).mp hok i ha hb) hne
          · exact hfail
    · constructor
      · intro _
        exact Or.inl hlen
      · intro _
        simp [Assert.assert_array_equals, Assert.assert, hlen]
  · by_cases hlen : a.length = b.length
    · rw [show Assert.assert_array_equals a b = Assert.arrayEqualsLoop a b by
        simp [Assert.assert_array_equals, Assert.assert, hlen]]
      rw [arrayEqualsLoop_ok_iff]
      exact ⟨fun h => ⟨hlen, h⟩, fun h => h.2⟩
    · constructor
      · intro h
        exact absurd h (by simp [Assert.assert_array_equals, Assert.assert, hlen])
      · intro h
        exact absurd h.1 hlen

/-- `TestCase<T>::TestData` (enki.h lines 149-154): test function pointer,
name, result flag and duration in seconds.  `F` abstracts the
member-function-pointer type `TestFunc`. -/
structure TestData (F : Type) where
  func : F
  name : String
  passed : Bool
  time : ℚ
deriving DecidableEq, Repr

/-- `TestCase<T>` state (enki.h line 238): the `std::list<TestData> data`. -/
structure TestCase (F : Type) where
  data : List (TestData F)
deriving DecidableEq, Repr

/-- `TestCase::add(test, name)` (enki.h lines 173-180): push a record with
`passed = false` and `time = 0.0` onto the back of `data`. -/
def TestCase.add {F : Type} (tc : TestCase F) (test : F) (name : String) : TestCase F :=
  ⟨tc.data ++ [{ func := test, name := name, passed := false, time := 0 }]⟩

/-- `TestCase::get_data()` (enki.h line 236). -/
def TestCase.get_data {F : Type} (tc : TestCase F) : List (TestData F) :=
  tc.data

/-- Dynamic behaviour of one test invocation: it returns normally, raises
`TestFailedException` or raises `TestPassedException`, in each case after
`elapsed` seconds of wall-clock time (the clock difference `t2 - t1` that the
source would measure at the return or raise point). -/
inductive Behaviour where
  | ret (elapsed : ℚ) : Behaviour
  | raiseFailed (elapsed : ℚ) : Behaviour
  | raisePassed (elapsed : ℚ) : Behaviour
deriving DecidableEq, Repr

/-- `TestCase::pass()` (enki.h line 224): throws `TestPassedException`. -/
def TestCase.pass : Except Exc Unit :=
  Except.error Exc.testPassed

/-- `TestCase::fail()` (enki.h line 229): throws `TestFailedException`. -/
def TestCase.fail : Except Exc Unit :=
  Except.error Exc.testFailed

/-- One iteration of the `run()` loop body acting on a record (enki.h lines
192-213): on normal return the measured duration is stored and `passed` is set
to true; if `TestFailedException` escapes the body, only `passed := false` runs
(the `(*it).time = ...` assignment at line 204 is skipped by the unwinding);
if `TestPassedException` escapes, only `passed := true` runs. -/
def runStep {F : Type} (b : Behaviour) (d : TestData F) : TestData F :=
  match b with
  | Behaviour.ret e => { d with time := e, passed := true }
  | Behaviour.raiseFailed _ => { d with passed := false }
  | Behaviour.raisePassed _ => { d with passed := true }

/-- Contribution of one iteration to the `err` flag (enki.h line 210): it is
set exactly when `TestFailedException` was caught. -/
def stepErr (b : Behaviour) : Bool :=
  match b with
  | Behaviour.ret _ => false
  | Behaviour.raiseFailed _ => true
  | Behaviour.raisePassed _ => false

/-- Observable events of a `run()` invocation: the `setup()` call, each test
invocation, and the `cleanup()` call. -/
inductive Event (F : Type) where
  | setupEv : Event F
  | testEv (func : F) (name : String) : Event F
  | cleanupEv : Event F
deriving DecidableEq, Repr

/-- Result of the `run()` loop over a suffix of `data`: the updated records,
the accumulated `err` flag, and the trace of test invocations. -/
structure RunResult (F : Type) where
  data : List (TestData F)
  err : Bool
  events : List (Event F)
deriving Repr

/-- The `for` loop of `TestCase::run()` (enki.h lines 191-214), iterating the
records in list order; the behaviour of the i-th executed test is `exec i`. -/
def TestCase.runLoop {F : Type} (exec : ℕ → Behaviour) : ℕ → List (TestData F) → RunResult F
  | _, [] => ⟨[], false, []⟩
  | i, d :: rest =>
    let r := TestCase.runLoop exec (i + 1) rest
    ⟨runStep (exec i) d :: r.data, stepErr (exec i) || r.err, Event.testEv d.func d.name :: r.events⟩

/-- Result of `TestCase::run()`: the engine state after the run, the returned
boolean, and the event trace. -/
structure RunOutcome (F : Type) where
  tcase : TestCase F
  result : Bool
  events : List (Event F)
deriving Repr

/-- `TestCase::run()` (enki.h lines 187-219): `setup()`, the loop over all
records, `cleanup()`, `return err`. -/
def TestCase.run {F : Type} (tc : TestCase F) (exec : ℕ → Behaviour) : RunOutcome F :=
  let r := TestCase.runLoop exec 0 tc.data
  ⟨⟨r.data⟩, r.err, Event.setupEv :: (r.events ++ [Event.cleanupEv])⟩

lemma runLoop_data_length {F : Type} (exec : ℕ → Behaviour) (i : ℕ) (l : List (TestData F)) :
    (TestCase.runLoop exec i l).data.length = l.length := by
  induction l generalizing i with
  | nil => rfl
  | cons d rest ih => simp [TestCase.runLoop, ih]

lemma runLoop_data_get? {F : Type} (exec : ℕ → Behaviour) (i j : ℕ) (l : List (TestData F)) :
    (TestCase.runLoop exec i l).data.get? j
      = (l.get? j).map (fun d => runStep (exec (i + j)) d) := by
  induction l generalizing i j with
  | nil => simp [TestCase.runLoop]
  | cons d rest ih =>
    cases j with
    | zero => simp [TestCase.runLoop]
    | succ k =>
      simp only [TestCase.runLoop, List.get?]
      rw [ih (i + 1) k]
      have : i + 1 + k = i + (k + 1) := by omega
      rw [this]

lemma runStep_passed {F : Type} (b : Behaviour) (d : TestData F) :
    (runStep b d).passed = ! stepErr b := by
  cases b <;> rfl

lemma runLoop_err_iff {F : Type} (exec : ℕ → Behaviour) (i : ℕ) (l : List (TestData F)) :
    (TestCase.runLoop exec i l).err = true ↔
      ∃ d ∈ (TestCase.runLoop exec i l).data, d.passed = false := by
  induction l generalizing i with
  | nil => simp [TestCase.runLoop]
  | cons d rest ih =>
    simp only [TestCase.runLoop, Bool.or_eq_true, List.mem_cons, exists_eq_or_imp]
    rw [ih (i + 1), runStep_passed]
    cases stepErr (exec i) <;> simp

lemma runLoop_events {F : Type} (exec : ℕ → Behaviour) (i : ℕ) (l : List (TestData F)) :
    (TestCase.runLoop exec i l).events = l.map (fun d => Event.testEv d.func d.name) := by
  induction l generalizing i with
  | nil => rfl
  | cons d rest ih => simp [TestCase.runLoop, ih]

lemma runStep_func_name {F : Type} (b : Behaviour) (d : TestData F) :
    (runStep b d).func = d.func ∧ (runStep b d).name = d.name := by
  cases b <;> exact ⟨rfl, rfl⟩

lemma runLoop_map_func_name {F : Type} (exec : ℕ → Behaviour) (i : ℕ) (l : List (TestData F)) :
    (TestCase.runLoop exec i l).data.map (fun d => (d.func, d.name))
      = l.map (fun d => (d.func, d.name)) := by
  induction l generalizing i with
  | nil => rfl
  | cons d rest ih =>
    simp only [TestCase.runLoop, List.map_cons, ih (i + 1)]
    rw [(runStep_func_name (exec i) d).1, (runStep_func_name (exec i) d).2]

lemma run_data_length {F : Type} (tc : TestCase F) (exec : ℕ → Behaviour) :
    (tc.run exec).tcase.data.length = tc.data.length :=
  runLoop_data_length exec 0 tc.data

lemma run_data_get? {F : Type} (tc : TestCase F) (exec : ℕ → Behaviour) (i : ℕ) :
    (tc.run exec).tcase.data.get? i = (tc.data.get? i).map (fun d => runStep (exec i) d) := by
  have h := runLoop_data_get? exec 0 i tc.data
  simpa [TestCase.run] using h

lemma foldl_add_data {F : Type} (regs : List (F × String)) :
    ∀ tc : TestCase F, (regs.foldl (fun t p => TestCase.add t p.1 p.2) tc).data
      = tc.data ++ regs.map (fun p => ⟨p.1, p.2, false, 0⟩) := by
  induction regs with
  | nil =>
    intro tc
    simp
  | cons p rest ih =>
    intro tc
    simp only [List.foldl_cons, List.map_cons]
    rw [ih]
    simp [TestCase.add]

/-- `ENKI_STYLE_PASSED` (enki.h line 40, default non-Windows build). -/
def ENKI_STYLE_PASSED : String := "\x1b[32m;"

/-- `ENKI_STYLE_FAILED` (enki.h line 41). -/
def ENKI_STYLE_FAILED : String := "\x1b[31m;"

/-- `ENKI_STYLE_DEFAULT` (enki.h line 42). -/
def ENKI_STYLE_DEFAULT : String := "\x1b[0m;"

/-- `ENKI_STR_PASSED` (enki.h line 43). -/
def ENKI_STR_PASSED : String := "PASSED"

/-- `ENKI_STR_FAILED` (enki.h line 44). -/
def ENKI_STR_FAILED : String := "FAILED"

/-- `ResultExporter::is_duration_exported()` (enki.h line 289): returns the
`export_test_durations` flag fixed at construction. -/
def ResultExporter.is_duration_exported (export_test_durations : Bool) : Bool :=
  export_test_durations

/-- `TextStreamResultExporter::export_result(data)` (enki.h lines 345-356):
writes `"[" << status << "] "`, then, only when `is_duration_exported()`,
`os.width(8); os << data.time << "s "`, then `data.name << std::endl`.
`showTime` models the stream's width-8 rendering of the `double`. -/
def TextStreamResultExporter.export_result {F : Type} (showTime : ℚ → String)
    (export_test_durations : Bool) (data : TestData F) : String :=
  "[" ++ (if data.passed then ENKI_STYLE_PASSED ++ ENKI_STR_PASSED ++ ENKI_STYLE_DEFAULT
          else ENKI_STYLE_FAILED ++ ENKI_STR_FAILED ++ ENKI_STYLE_DEFAULT) ++ "] "
    ++ (if ResultExporter.is_duration_exported export_test_durations
        then showTime data.time ++ "s " else "")
    ++ data.name ++ "\n"

/-- C1: for every engine and every combination of test behaviours (normal
return, Failed signal, Passed signal), `run()` returns true iff at least one
produced record has outcome failed; in particular `run()` on an engine with no
registered tests returns false. -/
theorem run_result_true_iff_some_failed {F : Type} (tc : TestCase F) (exec : ℕ → Behaviour) :
    ((tc.run exec).result = true ↔ ∃ d ∈ (tc.run exec).tcase.data, d.passed = false)
    ∧ ((TestCase.mk ([] : List (TestData F))).run exec).result = false := by
  refine ⟨?_, rfl⟩
  have h := runLoop_err_iff exec 0 tc.data
  simpa [TestCase.run] using h

/-- C2: for every registered test executed by `run()`, the record's outcome is
passed when the procedure returns normally, failed when it raises the Failed
signal, and passed when it raises the Passed signal (the raise unwinds the
body immediately, so code after an explicit `pass()` never runs). -/
theorem run_record_outcome_per_behaviour {F : Type} (tc : TestCase F) (exec : ℕ → Behaviour)
    (i : ℕ) (h : i < tc.data.length) :
    ∃ d : TestData F, (tc.run exec).tcase.data.get? i = some d ∧
      d.passed = (match exec i with
        | Behaviour.ret _ => true
        | Behaviour.raiseFailed _ => false
        | Behaviour.raisePassed _ => true) := by
  obtain ⟨d0, hd0⟩ : ∃ d0, tc.data.get? i = some d0 := by
    rw [List.get?_eq_get h]
    exact ⟨_, rfl⟩
  refine ⟨runStep (exec i) d0, ?_, ?_⟩
  · rw [run_data_get?, hd0]
    rfl
  · cases exec i <;> rfl

/-- C2 witness: a one-test engine whose test raises the Passed signal is
recorded as passed. -/
theorem run_record_outcome_per_behaviour_witness :
    ∃ d : TestData Unit,
      (((TestCase.mk ([] : List (TestData Unit))).add () "t").run
          (fun _ => Behaviour.raisePassed 3)).tcase.data.get? 0 = some d ∧
        d.passed = true :=
  run_record_outcome_per_behaviour ((TestCase.mk ([] : List (TestData Unit))).add () "t")
    (fun _ => Behaviour.raisePassed 3) 0 (by decide)

/-- C3 counterexample: a fresh one-test engine whose test raises the Failed
signal after 1 second of elapsed time; the produced record's duration is 0
(the pre-run value), not the elapsed time 1, because the unwinding skips the
timing assignment at enki.h line 204. -/
theorem failed_test_duration_not_elapsed :
    ((((TestCase.mk ([] : List (TestData Unit))).add () "t").run
        (fun _ => Behaviour.raiseFailed 1)).tcase.data.map (fun d => d.time) = [0])
    ∧ ¬ ((((TestCase.mk ([] : List (TestData Unit))).add () "t").run
        (fun _ => Behaviour.raiseFailed 1)).tcase.data.map (fun d => d.time) = [1]) :=
  ⟨rfl, by decide⟩

/-- C3 (amended): for every test whose procedure raises the Failed signal
during `run()`, the record's duration field is left unchanged at its pre-run
value (0 for a fresh record): the timing assignment is skipped when the Failed
signal unwinds the body, so no elapsed time is recorded for failed tests. -/
theorem failed_test_duration_unchanged {F : Type} (tc : TestCase F) (exec : ℕ → Behaviour)
    (i : ℕ) (e : ℚ) (hb : exec i = Behaviour.raiseFailed e) :
    ((tc.run exec).tcase.data.get? i).map (fun d => d.time)
      = (tc.data.get? i).map (fun d => d.time) := by
  rw [run_data_get?, hb]
  cases tc.data.get? i <;> rfl

/-- C3 (amended) witness: the one-test engine of the counterexample keeps its
record's duration 0 across the failing run. -/
theorem failed_test_duration_unchanged_witness :
    ((((TestCase.mk ([] : List (TestData Unit))).add () "t").run
        (fun _ => Behaviour.raiseFailed 1)).tcase.data.get? 0).map (fun d => d.time)
      = ((((TestCase.mk ([] : List (TestData Unit))).add () "t").data.get? 0).map
          (fun d => d.time)) :=
  failed_test_duration_unchanged ((TestCase.mk ([] : List (TestData Unit))).add () "t")
    (fun _ => Behaviour.raiseFailed 1) 0 1 rfl

/-- C4: for every sequence of `add(procedure, name)` registrations followed by
`run()`, the results hold exactly one record per registered test, in exactly
registration order, with the registered procedure and name (so repeated names
are neither deduplicated nor reordered). -/
theorem run_one_record_per_registration_in_order {F : Type} (regs : List (F × String))
    (exec : ℕ → Behaviour) :
    (((regs.foldl (fun t p => TestCase.add t p.1 p.2) (TestCase.mk [])).run exec).tcase.data.map
        (fun d => (d.func, d.name)) = regs)
    ∧ (((regs.foldl (fun t p => TestCase.add t p.1 p.2) (TestCase.mk [])).run
          exec).tcase.data.length = regs.length) := by
  have hdata := foldl_add_data regs (TestCase.mk [])
  constructor
  · have h := runLoop_map_func_name exec 0
      ((regs.foldl (fun t p => TestCase.add t p.1 p.2) (TestCase.mk [])).data)
    rw [show (((regs.foldl (fun t p => TestCase.add t p.1 p.2) (TestCase.mk [])).run
        exec).tcase.data) = (TestCase.runLoop exec 0
          ((regs.foldl (fun t p => TestCase.add t p.1 p.2) (TestCase.mk [])).data)).data from rfl]
    rw [h, hdata]
    have hcomp : ((fun d : TestData F => (d.func, d.name)) ∘ fun p : F × String =>
        ({ func := p.1, name := p.2, passed := false, time := 0 } : TestData F))
          = fun p : F × String => p := by
      funext p
      rfl
    simp [hcomp]
  · rw [run_data_length, hdata]
    simp

/-- C5: in every invocation of `run()`, `setup()` is invoked exactly once,
before any test, and `cleanup()` is invoked exactly once, after all tests,
whatever the behaviours (so also when tests raised the Failed signal). -/
theorem run_setup_once_cleanup_once {F : Type} (tc : TestCase F) (exec : ℕ → Behaviour) :
    (tc.run exec).events
      = Event.setupEv :: (tc.data.map (fun d => Event.testEv d.func d.name)
          ++ [Event.cleanupEv]) := by
  simp [TestCase.run, runLoop_events]

/-- C6 counterexample: a one-test engine; the first run returns normally after
5 seconds (record: passed, duration 5), the second run raises the Failed
signal at elapsed time 7.  After the second run the record is failed but its
duration is still 5 — the first run's value — so the second run did not
overwrite the record's duration. -/
theorem rerun_keeps_old_duration_on_failure :
    ((((TestCase.mk ([] : List (TestData Unit))).add () "t").run
        (fun _ => Behaviour.ret 5)).tcase.run
          (fun _ => Behaviour.raiseFailed 7)).tcase.data.map (fun d => (d.passed, d.time))
      = [(false, 5)]
    ∧ ((((TestCase.mk ([] : List (TestData Unit))).add () "t").run
        (fun _ => Behaviour.ret 5)).tcase.run
          (fun _ => Behaviour.raiseFailed 7)).tcase.data.map (fun d => d.time) ≠ [7] :=
  ⟨rfl, by decide⟩

/-- C6 (amended): re-invoking `run()` overwrites the existing records in place
rather than appending: after the second run there is still exactly one record
per registered test and each record's outcome reflects the second run; the
duration is overwritten only for tests that return normally in the second run,
while a test that raises a signal keeps the duration it had after the first
run. -/
theorem rerun_overwrites_records_in_place {F : Type} (tc : TestCase F)
    (e1 e2 : ℕ → Behaviour) :
    (((tc.run e1).tcase.run e2).tcase.data.length = tc.data.length)
    ∧ ∀ i : ℕ, (((tc.run e1).tcase.run e2).tcase.data.get? i).map (fun d => (d.passed, d.time))
        = ((tc.run e1).tcase.data.get? i).map (fun d =>
            ((match e2 i with
              | Behaviour.ret _ => true
              | Behaviour.raiseFailed _ => false
              | Behaviour.raisePassed _ => true),
             (match e2 i with
              | Behaviour.ret t => t
              | Behaviour.raiseFailed _ => d.time
              | Behaviour.raisePassed _ => d.time))) := by
  constructor
  · rw [run_data_length, run_data_length]
  · intro i
    rw [run_data_get?]
    cases (tc.run e1).tcase.data.get? i <;> cases e2 i <;> rfl

/-- C9: the text line exporter renders `[` status `] ` then the name and a
newline; with `export_durations = false` no duration field appears (the output
does not depend on the record's duration at all), and with `true` exactly one
duration field — the rendered duration followed by `s ` — appears between the
status and the name. -/
theorem text_export_duration_field {F : Type} (showTime : ℚ → String) (d : TestData F) :
    (TextStreamResultExporter.export_result showTime false d
      = "[" ++ (if d.passed then ENKI_STYLE_PASSED ++ ENKI_STR_PASSED ++ ENKI_STYLE_DEFAULT
                else ENKI_STYLE_FAILED ++ ENKI_STR_FAILED ++ ENKI_STYLE_DEFAULT) ++ "] "
          ++ d.name ++ "\n")
    ∧ (∀ t : ℚ, TextStreamResultExporter.export_result showTime false { d with time := t }
        = TextStreamResultExporter.export_result showTime false d)
    ∧ (TextStreamResultExporter.export_result showTime true d
      = "[" ++ (if d.passed then ENKI_STYLE_PASSED ++ ENKI_STR_PASSED ++ ENKI_STYLE_DEFAULT
                else ENKI_STYLE_FAILED ++ ENKI_STR_FAILED ++ ENKI_STYLE_DEFAULT) ++ "] "
          ++ (showTime d.time ++ "s ") ++ d.name ++ "\n") := by
  refine ⟨?_, fun t => rfl, rfl⟩
  simp [TextStreamResultExporter.export_result, ResultExporter.is_duration_exported]

/-- C10: `run()` neither adds nor removes records and never modifies the
procedure reference or name stored in any record: the registered
(procedure, name) list is identical before and after any run. -/
theorem run_preserves_registered_tests {F : Type} (tc : TestCase F) (exec : ℕ → Behaviour) :
    ((tc.run exec).tcase.data.length = tc.data.length)
    ∧ ((tc.run exec).tcase.data.map (fun d => (d.func, d.name))
        = tc.data.map (fun d => (d.func, d.name))) :=
  ⟨run_data_length tc exec, by simpa [TestCase.run] using runLoop_map_func_name exec 0 tc.data⟩

end Enki
